import Mathlib

/-!
Verification of the policy evaluation engine of `react-pbac`
(`src/createAccessControl.tsx`): the functions `can`, `canAll`, `canAny`
produced by `getAccessPolicy`.

The shallow embedding below mirrors the TypeScript source:
* an attribute map (`Record<string, any>` with primitive values) is an
  association list from string keys to primitive values, looked up with
  `List.lookup` (JS objects have unique keys, so first-match lookup agrees
  with JS property access);
* a statement is `{ resource, actions, effect, conditions? }`;
* the optional `conditions` argument of `can` (absent, a single map, or an
  array of maps) is the inductive `ConditionsArg`, normalized exactly as
  lines 64-69 of the source do;
* the `for` loop of `can` (lines 76-117) is the structural recursion
  `canGo`, threading the mutable `isAllowed` flag as an accumulator.
-/

namespace ReactPbac

/-- A primitive (scalar) attribute value, compared with JS strict equality. -/
inductive Value where
  | str (s : String)
  | int (n : Int)
  | boolean (b : Bool)
deriving DecidableEq, Repr

/-- An attribute map: a JS object with primitive values (unique keys). -/
abbrev AttrMap := List (String × Value)

/-- A statement effect: the string union type `"allow" | "deny"`. -/
inductive Effect where
  | allow
  | deny
deriving DecidableEq, Repr

/-- One policy statement (see `types.ts` / §3 of the spec):
`{ resource, actions, effect, conditions? }`. -/
structure Statement where
  resource : String
  actions : List String
  effect : Effect
  conditions : Option (List AttrMap)
deriving DecidableEq, Repr

/-- A policy: an ordered list of statements. -/
abbrev Policy := List Statement

/-- The `conditions?` parameter of `can`: absent, a single attribute map, or
an array of attribute maps. -/
inductive ConditionsArg where
  | absent
  | single (m : AttrMap)
  | multiple (ms : List AttrMap)
deriving DecidableEq, Repr

/-- Lines 64-69 of the source: `Array.isArray(conditions) ? conditions :
conditions ? [conditions] : []`.  A JS object is always truthy, so a single
map always becomes a one-element array. -/
def normalizeConditions : ConditionsArg → List AttrMap
  | ConditionsArg.absent => []
  | ConditionsArg.single m => [m]
  | ConditionsArg.multiple ms => ms

/-- Line 96-98 of the source: `Object.entries(policyCondition).every(([key,
value]) => inputCondition[key] === value)` — every key of the condition set
is present in the candidate map with an equal value. -/
def condSetHolds (policyCondition inputCondition : AttrMap) : Bool :=
  policyCondition.all (fun kv => inputCondition.lookup kv.1 == some kv.2)

/-- Lines 83-106 of the source: the `conditionMatches` computation for one
statement against the normalized input conditions. -/
def condSatisfied (stmt : Statement) (inputConditions : List AttrMap) : Bool :=
  if 0 < (stmt.conditions.getD []).length then
    if inputConditions.length = 0 then
      false
    else
      (stmt.conditions.getD []).any (fun policyCondition =>
        inputConditions.any (fun inputCondition =>
          condSetHolds policyCondition inputCondition))
  else
    true

/-- Lines 78-79 of the source: `stmt.actions.includes("*") ||
stmt.actions.includes(action)`. -/
def actionMatches (stmt : Statement) (action : String) : Bool :=
  stmt.actions.contains ("*") || stmt.actions.contains action

/-- The `for` loop of `can` (lines 76-117), with the mutable `isAllowed`
flag threaded as the accumulator `isAllowed`. -/
def canGo (action : String) (inputConditions : List AttrMap) :
    List Statement → Bool → Bool
  | [], isAllowed => isAllowed
  | stmt :: rest, isAllowed =>
    if actionMatches stmt action = false then
      canGo action inputConditions rest isAllowed
    else if condSatisfied stmt inputConditions = false then
      canGo action inputConditions rest isAllowed
    else
      match stmt.effect with
      | Effect.deny => false
      | Effect.allow => canGo action inputConditions rest true

/-- The engine's `can` (lines 56-120): normalize the input conditions,
filter the statements whose `resource` field strictly equals the queried
resource (line 72-74 — note: no wildcard test on the resource), then scan. -/
def can (accessControlPolicy : Policy) (resource action : String)
    (conditions : ConditionsArg) : Bool :=
  let inputConditions := normalizeConditions conditions
  let relevantStatements :=
    accessControlPolicy.filter (fun stmt => stmt.resource == resource)
  canGo action inputConditions relevantStatements false

/-- `canAll` (lines 122-129): `actions.every((action) => can(...))`. -/
def canAll (accessControlPolicy : Policy) (resource : String)
    (actions : List String) (conditions : ConditionsArg) : Bool :=
  actions.all (fun action => can accessControlPolicy resource action conditions)

/-- `canAny` (lines 131-138): `actions.some((action) => can(...))`. -/
def canAny (accessControlPolicy : Policy) (resource : String)
    (actions : List String) (conditions : ConditionsArg) : Bool :=
  actions.any (fun action => can accessControlPolicy resource action conditions)

/-! ### Derived predicates used to state and prove the properties -/

/-- A statement applies to a query (once selected for the resource): its
action check passes and its conditions are satisfied. -/
def stmtApplies (action : String) (ics : List AttrMap) (stmt : Statement) : Bool :=
  actionMatches stmt action && condSatisfied stmt ics

/-- A statement is an applicable deny for the query. -/
def appliesDeny (action : String) (ics : List AttrMap) (stmt : Statement) : Bool :=
  stmtApplies action ics stmt && decide (stmt.effect = Effect.deny)

/-- A statement is an applicable allow for the query. -/
def appliesAllow (action : String) (ics : List AttrMap) (stmt : Statement) : Bool :=
  stmtApplies action ics stmt && decide (stmt.effect = Effect.allow)

/-- Every key that occurs in some condition set of some statement of the
policy. -/
def policyKeys (p : Policy) : List String :=
  p.flatMap (fun s => (s.conditions.getD []).flatMap (fun pc => pc.map Prod.fst))

/-- Pairwise agreement of two candidate-context lists on a set of keys:
same number of candidates, and corresponding candidates give the same
lookup result on every listed key. -/
def agreeOnKeys (keys : List String) : List AttrMap → List AttrMap → Bool
  | [], [] => true
  | m₁ :: t₁, m₂ :: t₂ =>
    keys.all (fun k => decide (m₁.lookup k = m₂.lookup k)) &&
      agreeOnKeys keys t₁ t₂
  | _, _ => false

/-! ### Generic list helper lemmas -/

theorem all_congr_on (l : List α) (f g : α → Bool) (h : ∀ x ∈ l, f x = g x) :
    l.all f = l.all g := by
  induction l with
  | nil => rfl
  | cons x l ih =>
    simp only [List.all_cons]
    rw [h x (by simp), ih (fun y hy => h y (by simp [hy]))]

theorem any_congr_on (l : List α) (f g : α → Bool) (h : ∀ x ∈ l, f x = g x) :
    l.any f = l.any g := by
  induction l with
  | nil => rfl
  | cons x l ih =>
    simp only [List.any_cons]
    rw [h x (by simp), ih (fun y hy => h y (by simp [hy]))]

theorem any_of_perm {l₁ l₂ : List α} (f : α → Bool) (h : l₁.Perm l₂) :
    l₁.any f = l₂.any f := by
  rw [Bool.eq_iff_iff]
  simp only [List.any_eq_true]
  constructor
  · rintro ⟨x, hx, hfx⟩
    exact ⟨x, h.mem_iff.mp hx, hfx⟩
  · rintro ⟨x, hx, hfx⟩
    exact ⟨x, h.mem_iff.mpr hx, hfx⟩

/-! ### Characterization of the scan loop -/

/-- The loop of `can` computes: `false` as soon as any applicable deny
statement exists in the scanned list, otherwise the accumulator or-ed with
the existence of an applicable allow statement. -/
theorem canGo_eq (action : String) (ics : List AttrMap) (l : List Statement)
    (acc : Bool) :
    canGo action ics l acc =
      (!(l.any (appliesDeny action ics)) &&
        (acc || l.any (appliesAllow action ics))) := by
  induction l generalizing acc with
  | nil => simp [canGo]
  | cons s l ih =>
    by_cases h1 : actionMatches s action = false
    · have happ : stmtApplies action ics s = false := by
        simp [stmtApplies, h1]
      simp [canGo, h1, ih, List.any_cons, appliesDeny, appliesAllow, happ]
    · rw [Bool.not_eq_false] at h1
      by_cases h2 : condSatisfied s ics = false
      · have happ : stmtApplies action ics s = false := by
          simp [stmtApplies, h2]
        simp [canGo, h1, h2, ih, List.any_cons, appliesDeny, appliesAllow, happ]
      · rw [Bool.not_eq_false] at h2
        have happ : stmtApplies action ics s = true := by
          simp [stmtApplies, h1, h2]
        cases he : s.effect
        · simp [canGo, h1, h2, he, ih, List.any_cons, appliesDeny,
            appliesAllow, happ]
        · simp [canGo, h1, h2, he, List.any_cons, appliesDeny,
            appliesAllow, happ]

/-- The decision of `can`: no applicable deny among the statements selected
for the resource, and at least one applicable allow among them. -/
theorem can_eq (p : Policy) (r a : String) (c : ConditionsArg) :
    can p r a c =
      (!((p.filter (fun s => s.resource == r)).any
          (appliesDeny a (normalizeConditions c))) &&
        (p.filter (fun s => s.resource == r)).any
          (appliesAllow a (normalizeConditions c))) := by
  simp [can, canGo_eq]

/-! ### Shared helper lemmas about the decision -/

/-- If no statement of the policy both passes the resource filter and
applies (action matches, conditions satisfied), the decision is `false`. -/
theorem can_false_of_not_applies (p : Policy) (r a : String) (c : ConditionsArg)
    (h : ∀ s ∈ p, s.resource = r →
      stmtApplies a (normalizeConditions c) s = false) :
    can p r a c = false := by
  rw [can_eq]
  have key : ∀ s ∈ p.filter (fun st => st.resource == r),
      stmtApplies a (normalizeConditions c) s = false := by
    intro s hs
    rw [List.mem_filter] at hs
    exact h s hs.1 (by simpa using hs.2)
  have hd : (p.filter (fun st => st.resource == r)).any
      (appliesDeny a (normalizeConditions c)) = false := by
    rw [List.any_eq_false]
    intro s hs
    simp [appliesDeny, key s hs]
  have ha : (p.filter (fun st => st.resource == r)).any
      (appliesAllow a (normalizeConditions c)) = false := by
    rw [List.any_eq_false]
    intro s hs
    simp [appliesAllow, key s hs]
  rw [hd, ha]
  rfl

/-- A statement whose `conditions` list is non-empty is never satisfied
against an empty list of context candidates. -/
theorem condSatisfied_nil_of_ne (stmt : Statement)
    (h : stmt.conditions.getD [] ≠ []) :
    condSatisfied stmt [] = false := by
  have hp : 0 < (stmt.conditions.getD []).length := List.length_pos.mpr h
  simp [condSatisfied, hp]

/-- A statement whose `conditions` list is absent or empty is satisfied
against any list of context candidates. -/
theorem condSatisfied_of_empty (stmt : Statement) (ics : List AttrMap)
    (h : stmt.conditions.getD [] = []) :
    condSatisfied stmt ics = true := by
  simp [condSatisfied, h]

/-! ### The claims -/

/-- Claim C1 (code bug evidence). The source filters relevant statements
with `stmt.resource === resource` only (lines 72-74): there is no wildcard
branch for the resource.  Consequently the admin policy from the README
recipe, `[{resource: "*", actions: ["*"], effect: "allow"}]`, grants
nothing: `can("POST", "read")` evaluates to `false`, although the spec (and
the README recipe) require a statement with resource `"*"` to apply to
every queried resource. -/
theorem wildcard_resource_not_matched :
    can [⟨"*", ["*"], Effect.allow, none⟩] ("POST") ("read")
      ConditionsArg.absent = false := by
  decide

/-- Claim C2: deny precedence.  If some statement of the policy has the
queried resource, a matching action, satisfied conditions, and effect
`deny`, then `can` returns `false`, wherever that statement sits in the
policy and whatever allow statements the policy also contains. -/
theorem deny_precedence (p : Policy) (r a : String) (c : ConditionsArg)
    (s : Statement) (hmem : s ∈ p) (hres : s.resource = r)
    (hact : actionMatches s a = true)
    (hcond : condSatisfied s (normalizeConditions c) = true)
    (heff : s.effect = Effect.deny) :
    can p r a c = false := by
  rw [can_eq]
  have hfil : s ∈ p.filter (fun st => st.resource == r) := by
    rw [List.mem_filter]
    exact ⟨hmem, by simp [hres]⟩
  have hany : (p.filter (fun st => st.resource == r)).any
      (appliesDeny a (normalizeConditions c)) = true := by
    rw [List.any_eq_true]
    exact ⟨s, hfil, by simp [appliesDeny, stmtApplies, hact, hcond, heff]⟩
  rw [hany]
  rfl

/-- Witness for C2: a policy with an allow before a deny on the same query
still yields `false`. -/
theorem deny_precedence_witness :
    can [⟨"POST", ["read"], Effect.allow, none⟩,
         ⟨"POST", ["read"], Effect.deny, none⟩]
      ("POST") ("read") ConditionsArg.absent = false :=
  deny_precedence _ _ _ _ ⟨"POST", ["read"], Effect.deny, none⟩
    (by decide) rfl (by decide) (by decide) rfl

/-- Claim C3: default deny.  If no statement of the policy both has the
queried resource and applies (action match plus satisfied conditions), the
decision is `false`; this covers the empty policy and queries naming a
resource or action absent from every statement.  (`can` is a total Lean
function, so no error is raised.) -/
theorem default_deny (p : Policy) (r a : String) (c : ConditionsArg)
    (h : ∀ s ∈ p, s.resource = r →
      stmtApplies a (normalizeConditions c) s = false) :
    can p r a c = false :=
  can_false_of_not_applies p r a c h

/-- Witness for C3: an unmatched action on a matching resource, for a
one-statement policy, is denied. -/
theorem default_deny_witness :
    can [⟨"POST", ["read"], Effect.allow, none⟩]
      ("POST") ("delete") ConditionsArg.absent = false :=
  default_deny _ _ _ _ (by decide)

/-- Claim C4: condition satisfaction semantics.  For a statement with a
non-empty conditions list and a non-empty normalized context sequence, the
condition check succeeds iff some pair of (condition set, candidate map)
exists where every key of the condition set is present in the candidate
with an equal value: OR across condition sets, OR across candidates, AND
across keys. -/
theorem condition_or_semantics (stmt : Statement) (ics : List AttrMap)
    (h1 : stmt.conditions.getD [] ≠ []) (h2 : ics ≠ []) :
    condSatisfied stmt ics = true ↔
      ∃ pc ∈ stmt.conditions.getD [], ∃ ic ∈ ics,
        ∀ kv ∈ pc, ic.lookup kv.1 = some kv.2 := by
  have hp : 0 < (stmt.conditions.getD []).length := List.length_pos.mpr h1
  have hi : ¬ics.length = 0 := by
    simpa using h2
  simp [condSatisfied, hp, hi, List.any_eq_true, condSetHolds,
    List.all_eq_true]

/-- Witness for C4: the two-alternative condition list of the repository's
test suite, matched by its first alternative. -/
theorem condition_or_semantics_witness :
    (condSatisfied
        ⟨"POST", ["update"], Effect.allow,
          some [[("a", Value.int 1)], [("b", Value.int 2)]]⟩
        [[("a", Value.int 1)]] = true ↔
      ∃ pc ∈ (Statement.conditions
          ⟨"POST", ["update"], Effect.allow,
            some [[("a", Value.int 1)], [("b", Value.int 2)]]⟩).getD [],
        ∃ ic ∈ [[("a", Value.int 1)]],
          ∀ kv ∈ pc, List.lookup kv.1 ic = some kv.2) :=
  condition_or_semantics
    ⟨"POST", ["update"], Effect.allow,
      some [[("a", Value.int 1)], [("b", Value.int 2)]]⟩
    [[("a", Value.int 1)]] (by decide) (by decide)

/-- Claim C5: missing context with required conditions.  A statement with a
non-empty conditions list is never satisfied against zero context
candidates; and a policy made only of such (allow) statements yields
`false` for a query whose context normalizes to the empty sequence. -/
theorem missing_context_fails (stmt : Statement) (p : Policy)
    (r a : String) (c : ConditionsArg)
    (hs : stmt.conditions.getD [] ≠ [])
    (hc : normalizeConditions c = [])
    (hp : ∀ s ∈ p, s.conditions.getD [] ≠ [] ∧ s.effect = Effect.allow) :
    condSatisfied stmt [] = false ∧ can p r a c = false := by
  refine ⟨condSatisfied_nil_of_ne stmt hs, ?_⟩
  apply can_false_of_not_applies
  intro s hsmem _
  have := (hp s hsmem).1
  rw [stmtApplies, hc, condSatisfied_nil_of_ne s this]
  simp

/-- Witness for C5: one conditioned allow statement, queried without
context. -/
theorem missing_context_fails_witness :
    condSatisfied
        ⟨"POST", ["update"], Effect.allow,
          some [[("authorId", Value.str ("auth-123"))]]⟩ [] = false ∧
      can [⟨"POST", ["update"], Effect.allow,
          some [[("authorId", Value.str ("auth-123"))]]⟩]
        ("POST") ("update") ConditionsArg.absent = false :=
  missing_context_fails
    ⟨"POST", ["update"], Effect.allow,
      some [[("authorId", Value.str ("auth-123"))]]⟩
    [⟨"POST", ["update"], Effect.allow,
      some [[("authorId", Value.str ("auth-123"))]]⟩]
    ("POST") ("update") ConditionsArg.absent (by decide) rfl (by decide)

/-- Claim C6: `canAll` is the conjunction of `can` over the action list
(vacuously true on `[]`), and `canAny` is the disjunction (false on `[]`). -/
theorem canAll_canAny_consistent (p : Policy) (r : String)
    (actions : List String) (c : ConditionsArg) :
    (canAll p r actions c = true ↔ ∀ a ∈ actions, can p r a c = true) ∧
    (canAny p r actions c = true ↔ ∃ a ∈ actions, can p r a c = true) ∧
    canAll p r [] c = true ∧ canAny p r [] c = false := by
  refine ⟨?_, ?_, rfl, rfl⟩
  · exact List.all_eq_true
  · exact List.any_eq_true

/-- Claim C7: wildcard action.  A statement listing `"*"` among its actions
passes the action check for every queried action; a statement listing
neither the queried action nor `"*"` fails it and is skipped by the scan
(it leaves the loop state unchanged). -/
theorem wildcard_action (s : Statement) (a : String) (l : List Statement)
    (ics : List AttrMap) (acc : Bool) :
    (("*") ∈ s.actions → actionMatches s a = true) ∧
    (("*") ∉ s.actions → a ∉ s.actions →
      actionMatches s a = false ∧
        canGo a ics (s :: l) acc = canGo a ics l acc) := by
  constructor
  · intro h
    simp [actionMatches, h]
  · intro h1 h2
    have hm : actionMatches s a = false := by
      simp [actionMatches, h1, h2]
    exact ⟨hm, by simp [canGo, hm]⟩

/-- Witness for C7: a wildcard statement matches action `read`; a
`write`-only statement is skipped for action `read`. -/
theorem wildcard_action_witness :
    actionMatches ⟨"POST", ["*"], Effect.allow, none⟩ ("read") = true ∧
      canGo ("read") []
          (⟨"POST", ["write"], Effect.allow, none⟩ ::
            [⟨"POST", ["read"], Effect.allow, none⟩]) false =
        canGo ("read") [] [⟨"POST", ["read"], Effect.allow, none⟩] false :=
  ⟨(wildcard_action ⟨"POST", ["*"], Effect.allow, none⟩ ("read") [] []
      false).1 (by decide),
    ((wildcard_action ⟨"POST", ["write"], Effect.allow, none⟩ ("read")
        [⟨"POST", ["read"], Effect.allow, none⟩] [] false).2
      (by decide) (by decide)).2⟩

/-- Claim C8: unconditional statements.  A statement whose conditions are
absent or empty passes the condition check for every context; and an allow
statement with no conditions, matching resource and action, makes `can`
return `true` when no applicable deny exists for the query. -/
theorem unconditional_allows (stmt : Statement) (ics : List AttrMap)
    (p : Policy) (r a : String) (c : ConditionsArg)
    (h0 : stmt.conditions.getD [] = [])
    (hmem : stmt ∈ p) (hres : stmt.resource = r)
    (hact : actionMatches stmt a = true)
    (heff : stmt.effect = Effect.allow)
    (hnodeny : ∀ s ∈ p, s.resource = r →
      appliesDeny a (normalizeConditions c) s = false) :
    condSatisfied stmt ics = true ∧ can p r a c = true := by
  refine ⟨condSatisfied_of_empty stmt ics h0, ?_⟩
  rw [can_eq]
  have hd : (p.filter (fun st => st.resource == r)).any
      (appliesDeny a (normalizeConditions c)) = false := by
    rw [List.any_eq_false]
    intro s hs
    rw [List.mem_filter] at hs
    simp [hnodeny s hs.1 (by simpa using hs.2)]
  have ha : (p.filter (fun st => st.resource == r)).any
      (appliesAllow a (normalizeConditions c)) = true := by
    rw [List.any_eq_true]
    refine ⟨stmt, ?_, ?_⟩
    · rw [List.mem_filter]
      exact ⟨hmem, by simp [hres]⟩
    · simp [appliesAllow, stmtApplies, hact, heff,
        condSatisfied_of_empty stmt _ h0]
  rw [hd, ha]
  rfl

/-- Witness for C8: an unconditioned allow statement grants the query even
when a context is supplied. -/
theorem unconditional_allows_witness :
    condSatisfied ⟨"POST", ["read"], Effect.allow, none⟩
        [[("someContext", Value.str ("value"))]] = true ∧
      can [⟨"POST", ["read"], Effect.allow, none⟩] ("POST") ("read")
        (ConditionsArg.single [("someContext", Value.str ("value"))]) = true :=
  unconditional_allows ⟨"POST", ["read"], Effect.allow, none⟩
    [[("someContext", Value.str ("value"))]]
    [⟨"POST", ["read"], Effect.allow, none⟩] ("POST") ("read")
    (ConditionsArg.single [("someContext", Value.str ("value"))])
    rfl (by decide) rfl (by decide) rfl (by decide)

/-- Claim C9: order irrelevance.  Permuting the policy's statements never
changes the decision: the deny short-circuit only affects how early the
scan stops, and the final value depends only on which applicable deny and
allow statements exist. -/
theorem order_independent (p p' : Policy) (r a : String) (c : ConditionsArg)
    (h : p.Perm p') :
    can p r a c = can p' r a c := by
  rw [can_eq, can_eq]
  have hf := List.Perm.filter (fun st => st.resource == r) h
  rw [any_of_perm (appliesDeny a (normalizeConditions c)) hf,
    any_of_perm (appliesAllow a (normalizeConditions c)) hf]

/-- Witness for C9: swapping a deny and an allow statement leaves the
decision unchanged. -/
theorem order_independent_witness :
    can [⟨"POST", ["read"], Effect.deny, none⟩,
         ⟨"POST", ["read"], Effect.allow, none⟩]
        ("POST") ("read") ConditionsArg.absent =
      can [⟨"POST", ["read"], Effect.allow, none⟩,
           ⟨"POST", ["read"], Effect.deny, none⟩]
        ("POST") ("read") ConditionsArg.absent :=
  order_independent
    [⟨"POST", ["read"], Effect.deny, none⟩,
     ⟨"POST", ["read"], Effect.allow, none⟩]
    [⟨"POST", ["read"], Effect.allow, none⟩,
     ⟨"POST", ["read"], Effect.deny, none⟩]
    ("POST") ("read") ConditionsArg.absent (List.Perm.swap _ _ _)

/-! ### Noninterference helpers -/

theorem agreeOnKeys_length (keys : List String) :
    ∀ l₁ l₂ : List AttrMap, agreeOnKeys keys l₁ l₂ = true →
      l₁.length = l₂.length
  | [], [], _ => rfl
  | m₁ :: t₁, m₂ :: t₂, h => by
    rw [agreeOnKeys, Bool.and_eq_true] at h
    simp [agreeOnKeys_length keys t₁ t₂ h.2]
  | [], _ :: _, h => by simp [agreeOnKeys] at h
  | _ :: _, [], h => by simp [agreeOnKeys] at h

/-- Each key of each condition set of a statement of `p` is in
`policyKeys p`. -/
theorem mem_policyKeys (p : Policy) (s : Statement) (hs : s ∈ p)
    (pc : AttrMap) (hpc : pc ∈ s.conditions.getD [])
    (kv : String × Value) (hkv : kv ∈ pc) :
    kv.1 ∈ policyKeys p := by
  rw [policyKeys, List.mem_flatMap]
  refine ⟨s, hs, ?_⟩
  rw [List.mem_flatMap]
  exact ⟨pc, hpc, List.mem_map.mpr ⟨kv, hkv, rfl⟩⟩

/-- Two candidate maps that agree on every key of a condition set give the
same verdict for that condition set. -/
theorem condSetHolds_agree (keys : List String) (pc m₁ m₂ : AttrMap)
    (hsub : ∀ kv ∈ pc, kv.1 ∈ keys)
    (hag : keys.all (fun k => decide (m₁.lookup k = m₂.lookup k)) = true) :
    condSetHolds pc m₁ = condSetHolds pc m₂ := by
  apply all_congr_on
  intro kv hkv
  have hk := List.all_eq_true.mp hag kv.1 (hsub kv hkv)
  rw [decide_eq_true_eq] at hk
  rw [hk]

/-- Pairwise-agreeing candidate lists give the same `any` verdict for a
condition set whose keys are all listed. -/
theorem any_condSet_agree (keys : List String) (pc : AttrMap)
    (hsub : ∀ kv ∈ pc, kv.1 ∈ keys) :
    ∀ l₁ l₂ : List AttrMap, agreeOnKeys keys l₁ l₂ = true →
      l₁.any (fun ic => condSetHolds pc ic) =
        l₂.any (fun ic => condSetHolds pc ic)
  | [], [], _ => rfl
  | m₁ :: t₁, m₂ :: t₂, h => by
    rw [agreeOnKeys, Bool.and_eq_true] at h
    simp only [List.any_cons]
    rw [condSetHolds_agree keys pc m₁ m₂ hsub h.1,
      any_condSet_agree keys pc hsub t₁ t₂ h.2]
  | [], _ :: _, h => by simp [agreeOnKeys] at h
  | _ :: _, [], h => by simp [agreeOnKeys] at h

/-- The condition check of a statement of `p` cannot distinguish two
candidate lists that agree on all of `policyKeys p`. -/
theorem condSatisfied_agree (p : Policy) (s : Statement) (hs : s ∈ p)
    (l₁ l₂ : List AttrMap)
    (h : agreeOnKeys (policyKeys p) l₁ l₂ = true) :
    condSatisfied s l₁ = condSatisfied s l₂ := by
  have hlen : l₁.length = l₂.length := agreeOnKeys_length _ l₁ l₂ h
  by_cases hp : 0 < (s.conditions.getD []).length
  · rw [condSatisfied, condSatisfied, if_pos hp, if_pos hp, hlen]
    by_cases hz : l₂.length = 0
    · rw [if_pos hz, if_pos hz]
    · rw [if_neg hz, if_neg hz]
      apply any_congr_on
      intro pc hpc
      exact any_condSet_agree (policyKeys p) pc
        (fun kv hkv => mem_policyKeys p s hs pc hpc kv hkv) l₁ l₂ h
  · rw [condSatisfied, condSatisfied, if_neg hp, if_neg hp]

/-- `can` cannot distinguish two context arguments that agree on the
policy's keys. -/
theorem can_agree (p : Policy) (r a : String) (c₁ c₂ : ConditionsArg)
    (h : agreeOnKeys (policyKeys p)
      (normalizeConditions c₁) (normalizeConditions c₂) = true) :
    can p r a c₁ = can p r a c₂ := by
  rw [can_eq, can_eq]
  have key : ∀ s ∈ p.filter (fun st => st.resource == r),
      stmtApplies a (normalizeConditions c₁) s =
        stmtApplies a (normalizeConditions c₂) s := by
    intro s hs
    rw [List.mem_filter] at hs
    rw [stmtApplies, stmtApplies,
      condSatisfied_agree p s hs.1 (normalizeConditions c₁)
        (normalizeConditions c₂) h]
  rw [any_congr_on _ (appliesDeny a (normalizeConditions c₁))
      (appliesDeny a (normalizeConditions c₂))
      (fun s hs => by rw [appliesDeny, appliesDeny, key s hs]),
    any_congr_on _ (appliesAllow a (normalizeConditions c₁))
      (appliesAllow a (normalizeConditions c₂))
      (fun s hs => by rw [appliesAllow, appliesAllow, key s hs])]

/-- Claim C10: noninterference of unreferenced context keys.  Two context
arguments whose normalized candidate lists agree pairwise on every key that
occurs in some condition set of the policy yield the same results for
`can`, `canAll` and `canAny`, however they differ on all other keys. -/
theorem noninterference (p : Policy) (r a : String) (actions : List String)
    (c₁ c₂ : ConditionsArg)
    (h : agreeOnKeys (policyKeys p)
      (normalizeConditions c₁) (normalizeConditions c₂) = true) :
    can p r a c₁ = can p r a c₂ ∧
      canAll p r actions c₁ = canAll p r actions c₂ ∧
      canAny p r actions c₁ = canAny p r actions c₂ := by
  refine ⟨can_agree p r a c₁ c₂ h, ?_, ?_⟩
  · rw [canAll, canAll]
    exact all_congr_on _ _ _ (fun x _ => can_agree p r x c₁ c₂ h)
  · rw [canAny, canAny]
    exact any_congr_on _ _ _ (fun x _ => can_agree p r x c₁ c₂ h)

/-- Witness for C10: two contexts sharing `role` but differing on an
unreferenced key `extra` give the same decisions. -/
theorem noninterference_witness :
    (can [⟨"POST", ["read"], Effect.allow,
          some [[("role", Value.str ("admin"))]]⟩] ("POST") ("read")
        (ConditionsArg.single
          [("role", Value.str ("admin")), ("extra", Value.int 1)]) =
      can [⟨"POST", ["read"], Effect.allow,
          some [[("role", Value.str ("admin"))]]⟩] ("POST") ("read")
        (ConditionsArg.single
          [("role", Value.str ("admin")), ("extra", Value.int 2)])) ∧
      (canAll [⟨"POST", ["read"], Effect.allow,
          some [[("role", Value.str ("admin"))]]⟩] ("POST") ["read"]
        (ConditionsArg.single
          [("role", Value.str ("admin")), ("extra", Value.int 1)]) =
      canAll [⟨"POST", ["read"], Effect.allow,
          some [[("role", Value.str ("admin"))]]⟩] ("POST") ["read"]
        (ConditionsArg.single
          [("role", Value.str ("admin")), ("extra", Value.int 2)])) ∧
      (canAny [⟨"POST", ["read"], Effect.allow,
          some [[("role", Value.str ("admin"))]]⟩] ("POST") ["read"]
        (ConditionsArg.single
          [("role", Value.str ("admin")), ("extra", Value.int 1)]) =
      canAny [⟨"POST", ["read"], Effect.allow,
          some [[("role", Value.str ("admin"))]]⟩] ("POST") ["read"]
        (ConditionsArg.single
          [("role", Value.str ("admin")), ("extra", Value.int 2)])) :=
  noninterference
    [⟨"POST", ["read"], Effect.allow, some [[("role", Value.str ("admin"))]]⟩]
    ("POST") ("read") ["read"]
    (ConditionsArg.single [("role", Value.str ("admin")), ("extra", Value.int 1)])
    (ConditionsArg.single [("role", Value.str ("admin")), ("extra", Value.int 2)])
    (by decide)

end ReactPbac
